import Mathlib

/-!
Verification development for the featuretools temporal feature-synthesis
engine.  The repository ships the behaviour description (the Handling Time,
Time Series, EntitySet and Spark guides plus the version 1.0 transition
guide); the computation engine itself is not part of the source tree, so the
definitions below are shallow embeddings modelled from the specification and
the guides.  Times are integers (seconds); monetary amounts are exact
integers in hundredths of the display unit, so the guide's 31.54 is the
integer 3154 and 78.92 is 7892.
-/

namespace Featuretools

/-- A source-table row: entity instance key, time index (seconds), optional
last-time-index, and a numeric amount column in hundredths.  Modelled from
the spec: the transactions table of the Handling Time guide. -/
structure TxRow where
  id : Nat
  time : Int
  lti : Option Int := none
  amount : Int
deriving DecidableEq, Repr

/-- Modelled from the spec: cutoff-instant inclusion rule of
calculate_feature_matrix.  A row's time index qualifies against the cutoff
time; with include_cutoff_time the comparison is inclusive, without it the
comparison is strict. -/
def timeOk (includeCutoffTime : Bool) (cutoff t : Int) : Bool :=
  if includeCutoffTime then decide (t ≤ cutoff) else decide (t < cutoff)

/-- Modelled from the spec: training-window lower bound.  The bound is
cutoff − window; with include_cutoff_time the oldest boundary instant is
excluded (strict), without it the boundary instant is included. -/
def windowOk (includeCutoffTime : Bool) (cutoff w t : Int) : Bool :=
  if includeCutoffTime then decide (cutoff - w < t) else decide (cutoff - w ≤ t)

/-- Modelled from the spec: last-time-index relaxation of the training-window
lower bound — a row whose own time index predates the window start still
qualifies when its last-time-index reaches the window start. -/
def ltiOk (cutoff w : Int) : Option Int → Bool
  | none => false
  | some l => decide (cutoff - w ≤ l)

/-- Modelled from the spec: selection-phase predicate of the temporal
computation engine.  A row qualifies when its time index is within the
cutoff bound and, when a training window is given, it is within the window
lower bound or rescued by its last-time-index. -/
def selectRow (includeCutoffTime : Bool) (window : Option Int) (cutoff : Int)
    (t : Int) (lti : Option Int) : Bool :=
  timeOk includeCutoffTime cutoff t &&
    match window with
    | none => true
    | some w => windowOk includeCutoffTime cutoff w t || ltiOk cutoff w lti

/-- Modelled from the spec: the engine filters out non-qualifying rows before
any feature calculation. -/
def filterTx (includeCutoffTime : Bool) (window : Option Int) (cutoff : Int)
    (rows : List TxRow) : List TxRow :=
  rows.filter (fun r => selectRow includeCutoffTime window cutoff r.time r.lti)

/-- Sum aggregation over the amount column. -/
def sumAmount (rows : List TxRow) : Int :=
  (rows.map (fun r => r.amount)).sum

/-- Modelled from the spec: the Sum feature of the boundary example — filter
first, then aggregate the surviving rows. -/
def sumFeature (includeCutoffTime : Bool) (window : Option Int) (cutoff : Int)
    (rows : List TxRow) : Int :=
  sumAmount (filterTx includeCutoffTime window cutoff rows)

/-- Transaction at offset 0 s (transaction 116 of the guide, amount 78.92). -/
def tx0 : TxRow := { id := 1, time := 0, amount := 7892 }

/-- Transaction at offset 65 s (transaction 371 of the guide, amount 31.54). -/
def tx65 : TxRow := { id := 1, time := 65, amount := 3154 }

/-- Transaction at offset 130 s (after the cutoff in the boundary example). -/
def tx130 : TxRow := { id := 1, time := 130, amount := 4500 }

/-- The session-1 slice of the transactions table used by the
include_cutoff_time boundary example: rows at 65-second intervals. -/
def sessionTxns : List TxRow := [tx0, tx65, tx130]

/-- Claim C1: with a 65-second training window and the cutoff fixed at the
65 s row, include_cutoff_time selects exactly the row at the cutoff instant
(sum 31.54) and its negation selects exactly the row at the oldest window
boundary (sum 78.92); in general, for a positive window, the inclusion flag
includes the cutoff instant and excludes the oldest boundary instant, and
its negation does the reverse. -/
theorem boundary_symmetry (c w : Int) (hw : 0 < w) :
    filterTx true (some 65) 65 sessionTxns = [tx65] ∧
    sumFeature true (some 65) 65 sessionTxns = 3154 ∧
    filterTx false (some 65) 65 sessionTxns = [tx0] ∧
    sumFeature false (some 65) 65 sessionTxns = 7892 ∧
    selectRow true (some w) c c none = true ∧
    selectRow true (some w) c (c - w) none = false ∧
    selectRow false (some w) c c none = false ∧
    selectRow false (some w) c (c - w) none = true := by
  refine ⟨by decide, by decide, by decide, by decide, ?_, ?_, ?_, ?_⟩ <;>
    simp [selectRow, timeOk, windowOk, ltiOk] <;> omega

/-- Witness for C1 at cutoff 100, window 65. -/
theorem boundary_symmetry_witness :
    filterTx true (some 65) 65 sessionTxns = [tx65] ∧
    sumFeature true (some 65) 65 sessionTxns = 3154 ∧
    filterTx false (some 65) 65 sessionTxns = [tx0] ∧
    sumFeature false (some 65) 65 sessionTxns = 7892 ∧
    selectRow true (some 65) 100 100 none = true ∧
    selectRow true (some 65) 100 (100 - 65) none = false ∧
    selectRow false (some 65) 100 100 none = false ∧
    selectRow false (some 65) 100 (100 - 65) none = true :=
  boundary_symmetry 100 65 (by decide)

/-- Claim C2: no future leakage — every row surviving the selection phase
(hence every row contributing to a feature value) has time index at most the
cutoff time, strictly below it when include_cutoff_time is off, whatever the
training window and last-time-index; rows after the cutoff are filtered out
before any aggregation. -/
theorem no_future_leakage (includeCutoffTime : Bool) (window : Option Int)
    (cutoff : Int) (rows : List TxRow) (r : TxRow)
    (hr : r ∈ filterTx includeCutoffTime window cutoff rows) :
    r.time ≤ cutoff ∧ (includeCutoffTime = false → r.time < cutoff) := by
  have hsel : selectRow includeCutoffTime window cutoff r.time r.lti = true :=
    (List.mem_filter.mp hr).2
  simp only [selectRow, Bool.and_eq_true] at hsel
  have htime := hsel.1
  cases includeCutoffTime <;> simp [timeOk] at htime <;>
    exact ⟨by omega, by simp [htime]⟩

/-- Witness for C2: the cutoff-instant row of the boundary example. -/
theorem no_future_leakage_witness :
    tx65.time ≤ 65 ∧ (true = false → tx65.time < 65) :=
  no_future_leakage true (some 65) 65 sessionTxns tx65 (by decide)

/-- One row of the cutoff-time set: target instance id and cutoff time.
Passthrough columns ride along unchanged and are omitted here. -/
structure CutoffRow where
  instanceId : Nat
  time : Int
deriving DecidableEq, Repr

/-- One row of the computed feature matrix: original input position, the
(instance, cutoff-time) identity, and the computed feature value. -/
structure OutRow where
  idx : Nat
  instanceId : Nat
  time : Int
  value : Int
deriving DecidableEq, Repr

/-- Modelled from the spec: result ordering — ascending cutoff time with
ties broken by original input position (stable).  The two further
tie-break levels never fire on real outputs, whose input positions are
distinct; they only make the relation total and antisymmetric on the whole
row type. -/
def outLE (a b : OutRow) : Prop :=
  a.time < b.time ∨
    (a.time = b.time ∧
      (a.idx < b.idx ∨
        (a.idx = b.idx ∧
          (a.instanceId < b.instanceId ∨
            (a.instanceId = b.instanceId ∧ a.value ≤ b.value)))))

instance : DecidableRel outLE := fun a b => by
  unfold outLE
  exact inferInstance

instance : IsTrans OutRow outLE :=
  ⟨fun a b c hab hbc => by unfold outLE at hab hbc ⊢; omega⟩

instance : IsTotal OutRow outLE :=
  ⟨fun a b => by unfold outLE; omega⟩

instance : IsAntisymm OutRow outLE :=
  ⟨fun a b hab hba => by
    have h : a.time = b.time ∧ a.idx = b.idx ∧
        a.instanceId = b.instanceId ∧ a.value = b.value := by
      unfold outLE at hab hba; omega
    cases a
    cases b
    simp_all⟩

/-- Tag each cutoff row with its position in the caller-supplied set. -/
def annotate : Nat → List CutoffRow → List (Nat × CutoffRow)
  | _, [] => []
  | i, c :: cs => (i, c) :: annotate (i + 1) cs

/-- Evaluate one feature-matrix row: the (instance, cutoff-time) identity is
retained and the value is the supplied pure per-row evaluator. -/
def mkOut (f : CutoffRow → Int) (p : Nat × CutoffRow) : OutRow :=
  { idx := p.1, instanceId := p.2.instanceId, time := p.2.time, value := f p.2 }

/-- Modelled from the spec: compute_feature_matrix output assembly — one
evaluated row per input (instance, cutoff-time) pair, sorted by ascending
cutoff time with stable ties. -/
def computeMatrix (f : CutoffRow → Int) (cts : List CutoffRow) : List OutRow :=
  List.insertionSort outLE ((annotate 0 cts).map (mkOut f))

/-- Modelled from the spec: per-row evaluation of the Sum feature through the
temporal engine — the instance's source rows, filtered by the selection
phase at this row's cutoff time, then aggregated. -/
def evalSumFeature (data : List TxRow) (includeCutoffTime : Bool)
    (window : Option Int) (ct : CutoffRow) : Int :=
  sumFeature includeCutoffTime window ct.time
    (data.filter (fun r => r.id == ct.instanceId))

theorem length_annotate (i : Nat) (cts : List CutoffRow) :
    (annotate i cts).length = cts.length := by
  induction cts generalizing i with
  | nil => rfl
  | cons c cs ih => simp [annotate, ih]

/-- Claim C3: output contract — the matrix has exactly one row per input
(instance, cutoff-time) pair, its rows are exactly the evaluated input rows
(identity retained), and it is sorted by ascending cutoff time with ties
kept in input order. -/
theorem output_contract (f : CutoffRow → Int) (cts : List CutoffRow) :
    (computeMatrix f cts).length = cts.length ∧
    List.Perm (computeMatrix f cts) ((annotate 0 cts).map (mkOut f)) ∧
    List.Pairwise
      (fun a b : OutRow => a.time ≤ b.time ∧ (a.time = b.time → a.idx ≤ b.idx))
      (computeMatrix f cts) := by
  have hperm := List.perm_insertionSort outLE ((annotate 0 cts).map (mkOut f))
  have hsorted := List.sorted_insertionSort outLE ((annotate 0 cts).map (mkOut f))
  refine ⟨?_, hperm, ?_⟩
  · unfold computeMatrix
    rw [hperm.length_eq, List.length_map, length_annotate]
  · exact hsorted.imp (fun hab => by unfold outLE at hab; omega)

/-- Chunk-size parameter: a maximum row count or a fraction of the total. -/
inductive ChunkSize where
  | numRows (n : Nat)
  | fraction (num den : Nat)
deriving DecidableEq, Repr

/-- Modelled from the spec: the scheduler turns the chunk-size parameter
into a row count (a fraction is taken of the total row count). -/
def resolveChunk : ChunkSize → Nat → Nat
  | .numRows n, _ => n
  | .fraction num den, total => total * num / den

/-- Split a workload into consecutive chunks of at most n rows (everything
in one chunk when n is 0), with explicit fuel; each step consumes at least
one row, so fuel equal to the row count suffices. -/
def chunksOfFuel : Nat → Nat → List α → List (List α)
  | _, _, [] => []
  | 0, _, l => [l]
  | _ + 1, 0, l => [l]
  | fuel + 1, n + 1, x :: xs => (x :: xs.take n) :: chunksOfFuel fuel (n + 1) (xs.drop n)

/-- Split a workload into consecutive chunks of at most n rows (everything
in one chunk when n is 0). -/
def chunksOf (n : Nat) (l : List α) : List (List α) :=
  chunksOfFuel l.length n l

theorem flatten_chunksOfFuel :
    ∀ (fuel n : Nat) (l : List α), l.length ≤ fuel →
      (chunksOfFuel fuel n l).flatten = l := by
  intro fuel
  induction fuel with
  | zero =>
    intro n l h
    cases l with
    | nil => simp [chunksOfFuel]
    | cons x xs => simp at h
  | succ fuel ih =>
    intro n l h
    cases l with
    | nil => simp [chunksOfFuel]
    | cons x xs =>
      cases n with
      | zero => simp [chunksOfFuel]
      | succ n =>
        have hstep : chunksOfFuel (fuel + 1) (n + 1) (x :: xs) =
            (x :: xs.take n) :: chunksOfFuel fuel (n + 1) (xs.drop n) := rfl
        rw [hstep, List.flatten_cons,
          ih (n + 1) (xs.drop n) (by simp [List.length_drop]; simp at h; omega)]
        simp [List.cons_append, List.take_append_drop]

theorem flatten_chunksOf (n : Nat) (l : List α) : (chunksOf n l).flatten = l :=
  flatten_chunksOfFuel l.length n l le_rfl

theorem flatten_map_map (g : α → β) (L : List (List α)) :
    (L.map (List.map g)).flatten = L.flatten.map g := by
  induction L with
  | nil => rfl
  | cons x xs ih => simp only [List.map_cons, List.flatten_cons, List.map_append, ih]

theorem perm_flatten_of_perm {L₁ L₂ : List (List α)} (h : List.Perm L₁ L₂) :
    List.Perm L₁.flatten L₂.flatten := by
  induction h with
  | nil => exact .rfl
  | cons x _ ih => simpa using ih.append_left x
  | swap x y l =>
    simp only [List.flatten_cons, ← List.append_assoc]
    exact (List.perm_append_comm).append_right _
  | trans _ _ ih₁ ih₂ => exact ih₁.trans ih₂

/-- Modelled from the spec: each chunk is evaluated independently by the
same per-row evaluator. -/
def chunkResults (f : CutoffRow → Int) (k : Nat) (cts : List CutoffRow) :
    List (List OutRow) :=
  (chunksOf k (annotate 0 cts)).map (List.map (mkOut f))

/-- Modelled from the spec: the scheduler merges completed chunks by
re-sorting on (cutoff time, original input position), not by arrival. -/
def mergeChunks (rs : List (List OutRow)) : List OutRow :=
  List.insertionSort outLE rs.flatten

/-- Modelled from the spec: the chunked pipeline — partition, evaluate each
chunk, merge. -/
def computeChunked (f : CutoffRow → Int) (cs : ChunkSize)
    (cts : List CutoffRow) : List OutRow :=
  mergeChunks (chunkResults f (resolveChunk cs cts.length) cts)

theorem sort_eq_of_perm {l₁ l₂ : List OutRow} (h : List.Perm l₁ l₂) :
    List.insertionSort outLE l₁ = List.insertionSort outLE l₂ :=
  List.eq_of_perm_of_sorted
    ((List.perm_insertionSort _ _).trans (h.trans (List.perm_insertionSort _ _).symm))
    (List.sorted_insertionSort _ _) (List.sorted_insertionSort _ _)

/-- Claim C4: recomputation is deterministic, every chunk size (row count or
fraction) reproduces the unchunked output exactly, and any completion order
of the chunks merges to the same globally time-sorted matrix. -/
theorem chunking_equivalence (f : CutoffRow → Int) (cs : ChunkSize)
    (cts : List CutoffRow) (completed : List (List OutRow))
    (hc : List.Perm completed (chunkResults f (resolveChunk cs cts.length) cts)) :
    computeMatrix f cts = computeMatrix f cts ∧
    computeChunked f cs cts = computeMatrix f cts ∧
    mergeChunks completed = computeMatrix f cts := by
  have hjoin : (chunkResults f (resolveChunk cs cts.length) cts).flatten =
      (annotate 0 cts).map (mkOut f) := by
    unfold chunkResults
    rw [flatten_map_map, flatten_chunksOf]
  refine ⟨rfl, ?_, ?_⟩
  · unfold computeChunked mergeChunks computeMatrix
    rw [hjoin]
  · unfold mergeChunks computeMatrix
    exact sort_eq_of_perm ((perm_flatten_of_perm hc).trans (by rw [hjoin]))

/-- Witness for C4: two cutoff rows, chunk size one, chunks completing in
reversed order. -/
theorem chunking_equivalence_witness :
    computeMatrix (fun c => c.time) [⟨1, 10⟩, ⟨2, 5⟩] =
      computeMatrix (fun c => c.time) [⟨1, 10⟩, ⟨2, 5⟩] ∧
    computeChunked (fun c => c.time) (.numRows 1) [⟨1, 10⟩, ⟨2, 5⟩] =
      computeMatrix (fun c => c.time) [⟨1, 10⟩, ⟨2, 5⟩] ∧
    mergeChunks
        [[mkOut (fun c => c.time) (1, ⟨2, 5⟩)], [mkOut (fun c => c.time) (0, ⟨1, 10⟩)]] =
      computeMatrix (fun c => c.time) [⟨1, 10⟩, ⟨2, 5⟩] :=
  chunking_equivalence (fun c => c.time) (.numRows 1) [⟨1, 10⟩, ⟨2, 5⟩]
    [[mkOut (fun c => c.time) (1, ⟨2, 5⟩)], [mkOut (fun c => c.time) (0, ⟨1, 10⟩)]]
    (by decide)

/-- Column names of a cutoff-time dataframe: the two reserved names and
arbitrary other names. -/
inductive ColName where
  | instanceIdName
  | timeName
  | named (n : Nat)
deriving DecidableEq, Repr

/-- Outcome of resolving one required cutoff-time column. -/
inductive ColPick where
  | ok (name : ColName)
  | ambiguous
  | absent
deriving DecidableEq, Repr

/-- Modelled from the spec: resolution of a required cutoff-time column — it
may carry the reserved name or the target dataframe's native name; when both
distinct candidates are present the naming is ambiguous. -/
def pickColumn (reserved native : ColName) (cols : List ColName) : ColPick :=
  if cols.contains reserved && (decide (native ≠ reserved) && cols.contains native) then
    ColPick.ambiguous
  else if cols.contains reserved then ColPick.ok reserved
  else if cols.contains native then ColPick.ok native
  else ColPick.absent

/-- Fatal errors raised while checking the cutoff-time dataframe. -/
inductive CfmError where
  | ambiguousInstanceColumn
  | ambiguousTimeColumn
  | missingInstanceColumn
  | missingTimeColumn
deriving DecidableEq, Repr

/-- Modelled from the spec: column-name validation of the cutoff-time
dataframe against the target dataframe's index and time-index names. -/
def validateCutoffColumns (targetIndex targetTimeIndex : ColName)
    (cols : List ColName) : Except CfmError (ColName × ColName) :=
  match pickColumn ColName.instanceIdName targetIndex cols with
  | ColPick.ambiguous => Except.error CfmError.ambiguousInstanceColumn
  | ColPick.absent => Except.error CfmError.missingInstanceColumn
  | ColPick.ok idCol =>
    match pickColumn ColName.timeName targetTimeIndex cols with
    | ColPick.ambiguous => Except.error CfmError.ambiguousTimeColumn
    | ColPick.absent => Except.error CfmError.missingTimeColumn
    | ColPick.ok timeCol => Except.ok (idCol, timeCol)

/-- Modelled from the spec: compute_feature_matrix validates the cutoff-time
column naming before any computation starts; only a successful validation
reaches the compute stage. -/
def cfmWithValidation (targetIndex targetTimeIndex : ColName)
    (cols : List ColName) (compute : ColName × ColName → List OutRow) :
    Except CfmError (List OutRow) :=
  (validateCutoffColumns targetIndex targetTimeIndex cols).map compute

/-- Claim C5: a cutoff-time table naming both the reserved name and the
target's distinct native name is rejected with an ambiguity error before any
computation runs (for the instance-id column, and likewise for the time
column), while with unambiguous naming either the reserved or the native
name is accepted. -/
theorem ambiguous_column_error (ti tt : ColName) (cols : List ColName)
    (compute : ColName × ColName → List OutRow) :
    (cols.contains ColName.instanceIdName = true → cols.contains ti = true →
      ti ≠ ColName.instanceIdName →
      cfmWithValidation ti tt cols compute =
        Except.error CfmError.ambiguousInstanceColumn) ∧
    (∀ idCol, pickColumn ColName.instanceIdName ti cols = ColPick.ok idCol →
      cols.contains ColName.timeName = true → cols.contains tt = true →
      tt ≠ ColName.timeName →
      cfmWithValidation ti tt cols compute =
        Except.error CfmError.ambiguousTimeColumn) ∧
    (cols.contains ColName.instanceIdName = true → cols.contains ti = false →
      pickColumn ColName.instanceIdName ti cols = ColPick.ok ColName.instanceIdName) ∧
    (cols.contains ColName.instanceIdName = false → cols.contains ti = true →
      pickColumn ColName.instanceIdName ti cols = ColPick.ok ti) ∧
    (cols.contains ColName.timeName = true → cols.contains tt = false →
      pickColumn ColName.timeName tt cols = ColPick.ok ColName.timeName) ∧
    (cols.contains ColName.timeName = false → cols.contains tt = true →
      pickColumn ColName.timeName tt cols = ColPick.ok tt) := by
  refine ⟨?_, ?_, ?_, ?_, ?_, ?_⟩
  · intro h1 h2 h3
    simp at h1 h2
    simp [cfmWithValidation, validateCutoffColumns, pickColumn, h1, h2, h3,
      Except.map]
  · intro idCol hid h1 h2 h3
    simp at h1 h2
    unfold cfmWithValidation validateCutoffColumns
    rw [hid]
    simp [pickColumn, h1, h2, h3, Except.map]
  · intro h1 h2
    simp at h1 h2
    simp [pickColumn, h1, h2]
  · intro h1 h2
    simp at h1 h2
    have hne : ti ≠ ColName.instanceIdName := fun he => h1 (he ▸ h2)
    simp [pickColumn, h1, h2, hne]
  · intro h1 h2
    simp at h1 h2
    simp [pickColumn, h1, h2]
  · intro h1 h2
    simp at h1 h2
    have hne : tt ≠ ColName.timeName := fun he => h1 (he ▸ h2)
    simp [pickColumn, h1, h2, hne]

/-- Witness for C5, exercising every branch on concrete column lists. -/
theorem ambiguous_column_error_witness :
    cfmWithValidation (ColName.named 0) (ColName.named 1)
        [ColName.instanceIdName, ColName.named 0] (fun _ => []) =
      Except.error CfmError.ambiguousInstanceColumn ∧
    cfmWithValidation (ColName.named 0) (ColName.named 1)
        [ColName.named 0, ColName.timeName, ColName.named 1] (fun _ => []) =
      Except.error CfmError.ambiguousTimeColumn ∧
    pickColumn ColName.instanceIdName (ColName.named 0)
        [ColName.instanceIdName, ColName.timeName] =
      ColPick.ok ColName.instanceIdName ∧
    pickColumn ColName.instanceIdName (ColName.named 0)
        [ColName.named 0, ColName.timeName] =
      ColPick.ok (ColName.named 0) ∧
    pickColumn ColName.timeName (ColName.named 1)
        [ColName.named 0, ColName.timeName] =
      ColPick.ok ColName.timeName ∧
    pickColumn ColName.timeName (ColName.named 1)
        [ColName.named 0, ColName.named 1] =
      ColPick.ok (ColName.named 1) :=
  ⟨(ambiguous_column_error (ColName.named 0) (ColName.named 1)
      [ColName.instanceIdName, ColName.named 0] (fun _ => [])).1
      (by decide) (by decide) (by decide),
   (ambiguous_column_error (ColName.named 0) (ColName.named 1)
      [ColName.named 0, ColName.timeName, ColName.named 1] (fun _ => [])).2.1
      (ColName.named 0) (by decide) (by decide) (by decide) (by decide),
   (ambiguous_column_error (ColName.named 0) (ColName.named 1)
      [ColName.instanceIdName, ColName.timeName] (fun _ => [])).2.2.1
      (by decide) (by decide),
   (ambiguous_column_error (ColName.named 0) (ColName.named 1)
      [ColName.named 0, ColName.timeName] (fun _ => [])).2.2.2.1
      (by decide) (by decide),
   (ambiguous_column_error (ColName.named 0) (ColName.named 1)
      [ColName.named 0, ColName.timeName] (fun _ => [])).2.2.2.2.1
      (by decide) (by decide),
   (ambiguous_column_error (ColName.named 0) (ColName.named 1)
      [ColName.named 0, ColName.named 1] (fun _ => [])).2.2.2.2.2
      (by decide) (by decide)⟩

/-- A parent-table row (a session): instance key and time index
(session_start). -/
structure SessionRow where
  id : Nat
  start : Int
deriving DecidableEq, Repr

/-- A child-table row (a transaction inside a session). -/
structure ChildRow where
  sessionId : Nat
  time : Int
deriving DecidableEq, Repr

theorem le_foldl_max (l : List Int) (a : Int) : a ≤ l.foldl max a := by
  induction l generalizing a with
  | nil => exact le_rfl
  | cons x xs ih => exact le_trans (le_max_left a x) (ih (max a x))

theorem foldl_max_le_of_mem {l : List Int} {x : Int} (a : Int) (hx : x ∈ l) :
    x ≤ l.foldl max a := by
  induction l generalizing a with
  | nil => cases hx
  | cons y ys ih =>
    rcases List.mem_cons.mp hx with h | h
    · subst h
      exact le_trans (le_max_right a x) (le_foldl_max ys (max a x))
    · exact ih (max a y) h

theorem foldl_max_eq_init_or_mem (l : List Int) (a : Int) :
    l.foldl max a = a ∨ l.foldl max a ∈ l := by
  induction l generalizing a with
  | nil => exact Or.inl rfl
  | cons x xs ih =>
    rcases ih (max a x) with h | h
    · rcases max_choice a x with hm | hm
      · exact Or.inl (by rw [List.foldl_cons, h, hm])
      · exact Or.inr (by rw [List.foldl_cons, h, hm]; exact List.mem_cons_self x xs)
    · exact Or.inr (List.mem_cons_of_mem x h)

/-- Modelled from the spec: add_last_time_indexes — a parent instance's
last-time-index is the maximum of its own time index and the times of the
child rows that reference it, propagated bottom-up through the graph. -/
def lastTimeOf (children : List ChildRow) (s : SessionRow) : Int :=
  ((children.filter (fun c => c.sessionId == s.id)).map (fun c => c.time)).foldl
    max s.start

/-- Claim C6: with an active training window, an instance whose time index
predates the window start but whose last-time-index reaches the window start
is selected and contributes to aggregations over that window (removing the
last-time-index removes it); the last-time-index itself is the latest
timestamp the instance is active — an upper bound of the instance's own time
and all its child rows' times, and attained by one of them. -/
theorem last_time_index_inclusion (c w t l : Int)
    (ht : t ≤ c) (htw : t ≤ c - w) (hl : c - w ≤ l) :
    selectRow true (some w) c t (some l) = true ∧
    selectRow true (some w) c t none = false ∧
    (∀ (rows : List TxRow) (r : TxRow), r ∈ rows → r.time = t →
      r.lti = some l → r ∈ filterTx true (some w) c rows) ∧
    sumFeature true (some 65) 65
      [{ id := 1, time := -10, lti := some 10, amount := 100 }] = 100 ∧
    sumFeature true (some 65) 65
      [{ id := 1, time := -10, lti := none, amount := 100 }] = 0 ∧
    (∀ (children : List ChildRow) (s : SessionRow),
      s.start ≤ lastTimeOf children s ∧
      (∀ ch ∈ children, ch.sessionId = s.id → ch.time ≤ lastTimeOf children s) ∧
      (lastTimeOf children s = s.start ∨
        ∃ ch ∈ children, ch.sessionId = s.id ∧ lastTimeOf children s = ch.time)) := by
  have hsel : selectRow true (some w) c t (some l) = true := by
    simp [selectRow, timeOk, windowOk, ltiOk]
    omega
  refine ⟨hsel, ?_, ?_, by decide, by decide, ?_⟩
  · simp [selectRow, timeOk, windowOk, ltiOk]
    omega
  · intro rows r hr hrt hrl
    apply List.mem_filter.mpr
    exact ⟨hr, by rw [hrt, hrl]; exact hsel⟩
  · intro children s
    refine ⟨le_foldl_max _ _, ?_, ?_⟩
    · intro ch hch hid
      apply foldl_max_le_of_mem
      exact List.mem_map.mpr
        ⟨ch, List.mem_filter.mpr ⟨hch, by simp [hid]⟩, rfl⟩
    · rcases foldl_max_eq_init_or_mem
        ((children.filter (fun c => c.sessionId == s.id)).map (fun c => c.time))
        s.start with h | h
      · exact Or.inl h
      · rcases List.mem_map.mp h with ⟨ch, hch, hv⟩
        have hmem := List.mem_filter.mp hch
        exact Or.inr ⟨ch, hmem.1, by simpa using hmem.2, hv.symm⟩

/-- Witness for C6 at cutoff 65, window 65, a session starting at −10 whose
last transaction is at 10. -/
theorem last_time_index_inclusion_witness :
    selectRow true (some 65) 65 (-10) (some 10) = true ∧
    selectRow true (some 65) 65 (-10) none = false ∧
    (∀ (rows : List TxRow) (r : TxRow), r ∈ rows → r.time = -10 →
      r.lti = some 10 → r ∈ filterTx true (some 65) 65 rows) ∧
    sumFeature true (some 65) 65
      [{ id := 1, time := -10, lti := some 10, amount := 100 }] = 100 ∧
    sumFeature true (some 65) 65
      [{ id := 1, time := -10, lti := none, amount := 100 }] = 0 ∧
    (∀ (children : List ChildRow) (s : SessionRow),
      s.start ≤ lastTimeOf children s ∧
      (∀ ch ∈ children, ch.sessionId = s.id → ch.time ≤ lastTimeOf children s) ∧
      (lastTimeOf children s = s.start ∨
        ∃ ch ∈ children, ch.sessionId = s.id ∧ lastTimeOf children s = ch.time)) :=
  last_time_index_inclusion 65 65 (-10) 10 (by decide) (by decide) (by decide)

/-- A row of a table with a secondary time index (a trip log): primary time
index date_scheduled and secondary time index arr_time. -/
structure FlightRow where
  id : Nat
  scheduled : Int
  arrTime : Int
deriving DecidableEq, Repr

/-- Modelled from the spec: secondary-time-index masking — a cell of an
included row is unknown when its column is registered under the secondary
time index and the row's secondary timestamp is after the cutoff time;
otherwise the stored value is usable.  Rows whose primary time index does
not qualify expose nothing at all. -/
def cellValue (secondaryCols : List Nat) (cutoff : Int) (row : FlightRow)
    (col : Nat) (v : Int) : Option Int :=
  if selectRow true none cutoff row.scheduled none = false then none
  else if secondaryCols.contains col && decide (cutoff < row.arrTime) then none
  else some v

/-- Claim C7: for a row whose primary time index qualifies it for inclusion,
every column registered under the secondary time index is masked (unknown)
whenever the row's secondary timestamp is after the cutoff time, while
unregistered columns keep their value, and once the secondary timestamp is
reached the registered columns become usable too. -/
theorem secondary_time_index_masking (secondaryCols : List Nat) (cutoff : Int)
    (row : FlightRow) (col : Nat) (v : Int)
    (hrow : row.scheduled ≤ cutoff) :
    (secondaryCols.contains col = true → cutoff < row.arrTime →
      cellValue secondaryCols cutoff row col v = none) ∧
    (secondaryCols.contains col = false →
      cellValue secondaryCols cutoff row col v = some v) ∧
    (row.arrTime ≤ cutoff →
      cellValue secondaryCols cutoff row col v = some v) := by
  have hsel : selectRow true none cutoff row.scheduled none = true := by
    simp [selectRow, timeOk]
    omega
  refine ⟨?_, ?_, ?_⟩
  · intro hc hlt
    simp at hc
    simp [cellValue, hsel, hc, hlt]
  · intro hc
    simp at hc
    simp [cellValue, hsel, hc]
  · intro hge
    have hnlt : ¬(cutoff < row.arrTime) := by omega
    simp [cellValue, hsel, hnlt]

/-- Witness for C7: the arr_delay column of a trip scheduled at 0, arriving
at 100, evaluated at cutoff 50. -/
theorem secondary_time_index_masking_witness :
    ([3, 4].contains 3 = true → (50 : Int) < 100 →
      cellValue [3, 4] 50 ⟨14, 0, 100⟩ 3 7 = none) ∧
    ([3, 4].contains 3 = false →
      cellValue [3, 4] 50 ⟨14, 0, 100⟩ 3 7 = some 7) ∧
    ((100 : Int) ≤ 50 →
      cellValue [3, 4] 50 ⟨14, 0, 100⟩ 3 7 = some 7) :=
  secondary_time_index_masking [3, 4] 50 ⟨14, 0, 100⟩ 3 7 (by decide)

/-- Modelled from the spec: NumericLag(periods=p) evaluated at reference
position t reads the series value at position t − p; the Time Series guide
builds one delaying primitive per offset i + gap for i below the window
length. -/
def lagRef (t : Int) (p : Nat) : Int := t - p

/-- Modelled from the spec: membership of source position j in the window of
the rolling primitives (RollingMean, RollingMin) with the given
window_length and gap, evaluated at reference position t.  The window covers
the window_length positions ending at t − gap inclusive; with gap 0 the
reference row itself lies inside its own window, which the Time Series
guide calls out as exposing the target. -/
def rollingWindowMem (windowLength gap : Nat) (t j : Int) : Bool :=
  decide (t - gap - windowLength < j) && decide (j ≤ t - gap)

/-- The window asserted by the claim under test: the half-open interval from
t − window_length − gap inclusive to t − gap exclusive. -/
def claimedWindowMem (windowLength gap : Nat) (t j : Int) : Bool :=
  decide (t - windowLength - gap ≤ j) && decide (j < t - gap)

/-- Rolling sum over the modelled window of a series indexed from 0. -/
def rollingSum (xs : List Int) (windowLength gap : Nat) (t : Int) : Int :=
  (((List.range xs.length).filter
      (fun j => rollingWindowMem windowLength gap t (Int.ofNat j))).map
    (fun j => xs.getD j 0)).sum

/-- Counterexample to claim C8 as stated: with gap 0 (a value the caller may
pass) the rolling window at reference position 2 of a 3-long series contains
position 2 itself — the row's own current value (100) enters the rolling
sum, and position 2 lies outside the claimed half-open interval
[t − window_length − gap, t − gap), which here is [−1, 2). -/
theorem rolling_gap_counterexample :
    rollingWindowMem 3 0 2 2 = true ∧
    claimedWindowMem 3 0 2 2 = false ∧
    rollingSum [1, 2, 100] 3 0 2 = 103 ∧
    lagRef 2 0 = 2 := by decide

/-- Claim C8 (amended): the rolling primitives evaluated at reference
position t consume exactly the positions j with
t − gap − window_length < j ≤ t − gap (closed at the recent end); a positive
gap keeps the row's own value out of its feature, but gap 0 puts the
reference row inside its own window — the engine imposes no mandatory gap,
so the caller must choose gap ≥ 1 to avoid leaking the current value.  The
lag primitives built with offsets i + gap reference strictly earlier rows
exactly when the gap is positive. -/
theorem rolling_window_amended (windowLength gap : Nat) (t j : Int) :
    (rollingWindowMem windowLength gap t j = true ↔
      t - gap - windowLength < j ∧ j ≤ t - gap) ∧
    (1 ≤ gap → rollingWindowMem windowLength gap t t = false) ∧
    (1 ≤ gap → ∀ i : Nat, lagRef t (i + gap) < t) ∧
    (1 ≤ windowLength → rollingWindowMem windowLength 0 t t = true) := by
  refine ⟨?_, ?_, ?_, ?_⟩
  · simp [rollingWindowMem]
  · intro hg
    simp [rollingWindowMem]
    omega
  · intro hg i
    simp [lagRef]
    omega
  · intro hw
    simp [rollingWindowMem]
    omega

/-- Witness for the amended C8 at window length 5, gap 1, reference 9. -/
theorem rolling_window_amended_witness :
    (rollingWindowMem 5 1 9 8 = true ↔ (9 : Int) - 1 - 5 < 8 ∧ (8 : Int) ≤ 9 - 1) ∧
    (1 ≤ 1 → rollingWindowMem 5 1 9 9 = false) ∧
    (1 ≤ 1 → ∀ i : Nat, lagRef 9 (i + 1) < 9) ∧
    (1 ≤ 5 → rollingWindowMem 5 0 9 9 = true) :=
  rolling_window_amended 5 1 9 8

/-- Engine options of compute_feature_matrix relevant to backend support:
the training_window and approximate parameters, and whether any feature was
defined with use_previous. -/
structure CfmOptions where
  trainingWindow : Bool
  approximate : Bool
  usePrevious : Bool
deriving DecidableEq, Repr

/-- A primitive as the backend capability check sees it: whether it is
Spark-compatible (list_primitives exposes this as the spark_compatible
column; primitives needing the full column, the dataframe order, several
variables, or a time-dependent aggregation are not). -/
structure PrimitiveSpec where
  sparkCompatible : Bool
deriving DecidableEq, Repr

/-- The dataframe back ends of the engine. -/
inductive Backend where
  | pandas
  | spark
deriving DecidableEq, Repr

/-- Modelled from the spec: backend capability matrix of the Spark entityset
guide — pandas supports every engine option and primitive, while Spark
supports neither the approximate nor the training_window parameter, rejects
use_previous features, and runs only the Spark-compatible subset of the
primitive library. -/
def supports : Backend → CfmOptions → List PrimitiveSpec → Bool
  | Backend.pandas, _, _ => true
  | Backend.spark, o, prims =>
    !o.trainingWindow && !o.approximate && !o.usePrevious &&
      prims.all (fun p => p.sparkCompatible)

/-- Modelled from the spec: the pandas backend returns the ordered feature
matrix of the shared temporal engine; an unsupported computation is
rejected. -/
def runPandas (o : CfmOptions) (prims : List PrimitiveSpec)
    (f : CutoffRow → Int) (cts : List CutoffRow) : Option (List OutRow) :=
  if supports Backend.pandas o prims then some (computeMatrix f cts) else none

/-- Modelled from the spec: the Spark backend evaluates the same per-row
values through the shared engine, but the guide states that row order of a
Spark dataframe is not maintained, so only the bag of result rows is
defined; an unsupported computation is rejected. -/
def runSpark (o : CfmOptions) (prims : List PrimitiveSpec)
    (f : CutoffRow → Int) (cts : List CutoffRow) : Option (Multiset OutRow) :=
  if supports Backend.spark o prims then
    some (Multiset.ofList ((annotate 0 cts).map (mkOut f)))
  else none

/-- Counterexample to claim C9 as stated: a computation using a training
window, and likewise an option-free computation using a primitive that is
not Spark-compatible, are accepted on the pandas backend but rejected on the
Spark backend, so not every computation accepted on one backend is supported
with the same result on the others. -/
theorem spark_backend_counterexample :
    supports Backend.pandas ⟨true, false, false⟩ [] = true ∧
    supports Backend.spark ⟨true, false, false⟩ [] = false ∧
    runPandas ⟨true, false, false⟩ [] (fun c => c.time) [⟨1, 0⟩] ≠ none ∧
    runSpark ⟨true, false, false⟩ [] (fun c => c.time) [⟨1, 0⟩] = none ∧
    supports Backend.pandas ⟨false, false, false⟩ [⟨false⟩] = true ∧
    supports Backend.spark ⟨false, false, false⟩ [⟨false⟩] = false ∧
    runSpark ⟨false, false, false⟩ [⟨false⟩] (fun c => c.time) [⟨1, 0⟩] = none := by
  decide

/-- Claim C9 (amended): the back ends share one temporal engine, but Spark
supports only the computations that use neither training_window nor
approximate nor use_previous and whose primitives are all Spark-compatible;
for those computations the Spark backend yields exactly the rows of the
pandas feature matrix up to row order, which Spark does not maintain
(dtype drift of boolean columns holding missing values is a typing-level
artifact outside this value-level model). -/
theorem spark_backend_amended (o : CfmOptions) (prims : List PrimitiveSpec)
    (f : CutoffRow → Int) (cts : List CutoffRow)
    (h : supports Backend.spark o prims = true) :
    runSpark o prims f cts = some (Multiset.ofList (computeMatrix f cts)) ∧
    runPandas o prims f cts = some (computeMatrix f cts) := by
  refine ⟨?_, by simp [runPandas, supports]⟩
  unfold runSpark
  rw [h]
  simp only [if_true]
  have hperm : List.Perm ((annotate 0 cts).map (mkOut f)) (computeMatrix f cts) :=
    (List.perm_insertionSort outLE ((annotate 0 cts).map (mkOut f))).symm
  exact congrArg some (Multiset.coe_eq_coe.mpr hperm)

/-- Witness for the amended C9: a one-row cutoff set, no engine options, one
Spark-compatible primitive. -/
theorem spark_backend_amended_witness :
    runSpark ⟨false, false, false⟩ [⟨true⟩] (fun c => c.time) [⟨1, 0⟩] =
      some (Multiset.ofList (computeMatrix (fun c => c.time) [⟨1, 0⟩])) ∧
    runPandas ⟨false, false, false⟩ [⟨true⟩] (fun c => c.time) [⟨1, 0⟩] =
      some (computeMatrix (fun c => c.time) [⟨1, 0⟩]) :=
  spark_backend_amended ⟨false, false, false⟩ [⟨true⟩] (fun c => c.time)
    [⟨1, 0⟩] (by decide)

/-- Woodwork logical types relevant to foreign-key feature generation. -/
inductive LogicalType where
  | categorical
  | integer
  | double
  | datetime
deriving DecidableEq, Repr

/-- A dataframe column as the synthesis stage sees it: whether it is a
foreign key and its logical type. -/
structure Column where
  isForeignKey : Bool
  ltype : LogicalType
deriving DecidableEq, Repr

/-- Modelled from the spec: Featuretools 1.0 foreign-key handling — foreign
key columns are no longer forced to be categorical, and deep feature
synthesis generates features from a foreign-key column only when its logical
type is Categorical. -/
def dfsGeneratesFrom (c : Column) : Bool :=
  !c.isForeignKey || c.ltype == LogicalType.categorical

/-- Modelled from the spec: ww.set_types — manually updating a column's
logical type. -/
def setLogicalType (c : Column) (lt : LogicalType) : Column :=
  { c with ltype := lt }

/-- Claim C10: a foreign-key column whose logical type is not Categorical
(for example Integer) yields no features under deep feature synthesis, and
manually converting its logical type to Categorical makes features be
generated from it. -/
theorem foreign_key_typing (c : Column) (hfk : c.isForeignKey = true)
    (h : c.ltype ≠ LogicalType.categorical) :
    dfsGeneratesFrom c = false ∧
    dfsGeneratesFrom (setLogicalType c LogicalType.categorical) = true := by
  cases c
  simp at hfk
  subst hfk
  constructor
  · simp [dfsGeneratesFrom]
    simpa using h
  · simp [dfsGeneratesFrom, setLogicalType]

/-- Witness for C10: an Integer-typed foreign-key column. -/
theorem foreign_key_typing_witness :
    dfsGeneratesFrom ⟨true, LogicalType.integer⟩ = false ∧
    dfsGeneratesFrom (setLogicalType ⟨true, LogicalType.integer⟩
      LogicalType.categorical) = true :=
  foreign_key_typing ⟨true, LogicalType.integer⟩ rfl (by decide)

end Featuretools
